import Mathlib

/-!
Verification of the RFQ Assistant row-wise generate → parse → tabulate
pipeline (`RFQ_Assistant_.py`).  The pure core of the program — the
per-row generation loop with its try/except, the line-prefix field
extractor, and the output-table assembly — is embedded below as
executable Lean definitions, and the specified properties are proved
about them.
-/

namespace RFQ

/-- The fixed ordered list of output field names (`output_cols`,
source lines 103–104). -/
def output_cols : List String :=
  ["Product Category", "Product SubCategory", "Product Type", "Material of Construction",
   "Size or Dimension", "Standards", "Finish", "Miscellaneous Info", "Cautions",
   "Assumption Reasons"]

/-- Python whitespace, as recognised by `str.strip()` with no
arguments (ASCII whitespace plus the Unicode space characters). -/
def isPySpace (c : Char) : Bool :=
  c = ' ' || c = '\t' || c = '\n' || c.val = 11 || c.val = 12 || c = '\r' ||
  c.val = 0x1c || c.val = 0x1d || c.val = 0x1e || c.val = 0x1f ||
  c.val = 0x85 || c.val = 0xa0 || c.val = 0x1680 ||
  (0x2000 ≤ c.val && c.val ≤ 0x200a) ||
  c.val = 0x2028 || c.val = 0x2029 || c.val = 0x202f || c.val = 0x205f || c.val = 0x3000

/-- The line-boundary characters of Python `str.splitlines()`
(with `\r\n` additionally treated as one boundary, see `splitlines`). -/
def isLineBreak (c : Char) : Bool :=
  c = '\n' || c = '\r' || c.val = 11 || c.val = 12 ||
  c.val = 0x1c || c.val = 0x1d || c.val = 0x1e ||
  c.val = 0x85 || c.val = 0x2028 || c.val = 0x2029

/-- `line.strip()`: drop leading and trailing Python whitespace. -/
def pyStrip (l : List Char) : List Char :=
  ((l.dropWhile isPySpace).reverse.dropWhile isPySpace).reverse

/-- `line.lower()` (ASCII case folding; all field names are ASCII). -/
def pyLower (l : List Char) : List Char :=
  l.map Char.toLower

/-- `s.startswith(p)` on character lists: first argument the string,
second the candidate prefix. -/
def startsWithL : List Char → List Char → Bool
  | _, [] => true
  | [], _ :: _ => false
  | c :: cs, p :: ps => p == c && startsWithL cs ps

/-- Collapse each two-character `\r\n` boundary into a single `\r`,
so that `splitlinesGo` below only ever deals with one-character line
boundaries.  Mirrors the `\r\n` clause of Python `str.splitlines()`. -/
def collapseCRLF : List Char → List Char
  | [] => []
  | '\r' :: '\n' :: rest => '\r' :: collapseCRLF rest
  | c :: rest => c :: collapseCRLF rest

/-- Worker for `splitlines`: `acc` holds the current line reversed.
A trailing line boundary produces no final empty line, exactly as in
Python `str.splitlines()`. -/
def splitlinesGo : List Char → List Char → List (List Char)
  | [], acc => [acc.reverse]
  | c :: rest, acc =>
    if isLineBreak c then
      acc.reverse :: (if rest.isEmpty then [] else splitlinesGo rest [])
    else splitlinesGo rest (c :: acc)

/-- `text.splitlines()` (source line 108). -/
def splitlines (l : List Char) : List (List Char) :=
  if l.isEmpty then [] else splitlinesGo (collapseCRLF l) []

/-- `line.split(":", 1)[-1]`: everything after the first colon, or the
whole line when it contains no colon. -/
def afterFirstColon (l : List Char) : List Char :=
  if l.contains ':' then (l.dropWhile (fun c => c != ':')).drop 1 else l

/-- `line.lower().startswith(col.lower() + ":")` (source line 115). -/
def matchesB (line : List Char) (col : String) : Bool :=
  startsWithL (pyLower line) (pyLower col.data ++ [':'])

/-- The inner `for col in output_cols: ... break` loop (source lines
114–120): the first column whose prefix matches the line, if any. -/
def firstMatch (line : List Char) : List String → Option String
  | [] => none
  | col :: rest => if matchesB line col then some col else firstMatch line rest

/-- `out_dict` is a Python dict with the ten field names as keys; we
model it as an ordered association list.  `dictSet` is `d[k] = v`:
replace the (unique) binding of `k`, or append it when absent. -/
def dictSet : List (String × String) → String → String → List (String × String)
  | [], k, v => [(k, v)]
  | p :: rest, k, v => if p.1 == k then (k, v) :: rest else p :: dictSet rest k v

/-- `d[k]` lookup, defaulting to the empty string. -/
def dictGet (d : List (String × String)) (k : String) : String :=
  ((d.find? (fun p => p.1 == k)).map Prod.snd).getD ""

/-- `out_dict = {col: "" for col in output_cols}` (source line 109). -/
def emptyDict : List (String × String) :=
  output_cols.map (fun c => (c, ""))

/-- The body of the per-line loop (source lines 111–124), acting on the
state `(out_dict, current_col)`.  A matching line overwrites the
matched field with the text after the first colon, trimmed, and resets
`current_col`; a non-matching line is appended (after a newline) to the
current field when one is set, and dropped otherwise. -/
def processLine (st : List (String × String) × Option String) (rawLine : List Char) :
    List (String × String) × Option String :=
  let line := pyStrip rawLine
  match firstMatch line output_cols with
  | some col =>
      (dictSet st.1 col (String.mk (pyStrip (afterFirstColon line))), some col)
  | none =>
      match st.2 with
      | some cur => (dictSet st.1 cur (dictGet st.1 cur ++ "\n" ++ String.mk line), some cur)
      | none => st

/-- `for line in lines: ...`: fold `processLine` over the lines. -/
def runLines (st : List (String × String) × Option String) :
    List (List Char) → List (String × String) × Option String
  | [] => st
  | l :: rest => runLines (processLine st l) rest

/-- The field extractor (source lines 107–127): parse one raw response
text into the ten-field record. -/
def extractDict (t : String) : List (String × String) :=
  (runLines (emptyDict, none) (splitlines t.data)).1

/-- One extracted field of one raw response text. -/
def extractField (t : String) (col : String) : String :=
  dictGet (extractDict t) col

/-- The try/except around the remote call (source lines 78–97): a
successful call contributes its raw text, a failed call contributes
the literal text made of the marker and the error message. -/
def recordOutcome : Except String String → String
  | Except.ok t => t
  | Except.error m => "ERROR: " ++ m

/-- The per-row loop (source lines 75–100), with `i0` the index of the
first remaining row: each row's description is sent to the generation
oracle `gen`, and exactly one text is appended per row. -/
def outputTextsFrom (gen : Nat → String → Except String String) (i0 : Nat) :
    List String → List String
  | [] => []
  | d :: rest => recordOutcome (gen i0 d) :: outputTextsFrom gen (i0 + 1) rest

/-- `output_texts` after the whole loop (source lines 73–100). -/
def outputTexts (rows : List String) (gen : Nat → String → Except String String) :
    List String :=
  outputTextsFrom gen 0 rows

/-- The parsing loop (source lines 107–127): one record per raw text. -/
def parsedRecords (texts : List String) : List (List (String × String)) :=
  texts.map extractDict

/-- `parsed_outputs[col]` (source lines 105, 126–127): the column of
extracted values for one field. -/
def parsedColumn (texts : List String) (col : String) : List String :=
  (parsedRecords texts).map (fun d => dictGet d col)

/-- A pandas DataFrame, modelled as an ordered association of column
name to column values (cell values already coerced to strings, as
`str(row[selected_col])` does on source line 76). -/
abbrev Table : Type := List (String × List String)

/-- `df[n] = vs` (source line 130): replace the column in place when
present, append it at the end otherwise. -/
def setColumn : Table → String → List String → Table
  | [], n, vs => [(n, vs)]
  | p :: rest, n, vs => if p.1 == n then (n, vs) :: rest else p :: setColumn rest n vs

/-- `df[n]` lookup, defaulting to the empty column. -/
def lookupCol (t : Table) (n : String) : List String :=
  ((t.find? (fun p => p.1 == n)).map Prod.snd).getD []

/-- `df[names]` column projection (source line 133). -/
def project (t : Table) (names : List String) : Table :=
  names.map (fun n => (n, lookupCol t n))

/-- The selected description column of the input table, read row by
row (source lines 75–76). -/
def descTexts (t : Table) (sel : String) : List String :=
  lookupCol t sel

/-- The whole pipeline after the process button (source lines 73–133):
run the generation loop over the description column, parse every raw
text, assign the ten parsed columns onto the frame, and project
`[selected_col] + output_cols`. -/
def processTable (t : Table) (sel : String) (gen : Nat → String → Except String String) :
    Table :=
  let texts := outputTexts (descTexts t sel) gen
  project (output_cols.foldl (fun a c => setColumn a c (parsedColumn texts c)) t)
    (sel :: output_cols)

/-- The defensive coercion of the processed table before display
(source lines 146–152).  The session value is either already a
DataFrame (left) or raw data together with the outcome of the
`pd.DataFrame(...)` conversion attempt (right); on a conversion
failure the exception is caught, an error message is surfaced, and the
table reference is reset to `none`. -/
def ensureProcessedDf (x : Table ⊕ Except String Table) : Option Table × Option String :=
  match x with
  | Sum.inl t => (some t, none)
  | Sum.inr (Except.ok t) => (some t, none)
  | Sum.inr (Except.error e) =>
      (none, some ("Error: The processed data is not in the correct format. " ++ e))

/-- The `on_change` callback of the editable grid (source lines
20–29): a non-DataFrame value is converted, and on a conversion
failure the exception is caught, an error message is surfaced, and the
previous table reference is kept. -/
def handle_table_edit (editable : Table ⊕ Except String Table) (old : Option Table) :
    Option Table × Option String :=
  match editable with
  | Sum.inl t => (some t, none)
  | Sum.inr (Except.ok t) => (some t, none)
  | Sum.inr (Except.error e) => (old, some ("Error updating table: " ++ e))

/-! ### Dictionary lemmas -/

theorem dictGet_dictSet_self (d : List (String × String)) (k v : String) :
    dictGet (dictSet d k v) k = v := by
  induction d with
  | nil => simp [dictSet, dictGet]
  | cons p rest ih =>
    by_cases h : p.1 == k
    · simp [dictSet, h, dictGet]
    · simp only [dictSet, h, Bool.false_eq_true, if_false]
      simpa [dictGet, List.find?, h] using ih

theorem dictGet_dictSet_ne (d : List (String × String)) (k m v : String)
    (h : (k == m) = false) :
    dictGet (dictSet d k v) m = dictGet d m := by
  induction d with
  | nil => simp [dictSet, dictGet, List.find?, h]
  | cons p rest ih =>
    by_cases hp : p.1 == k
    · have hp1 : p.1 = k := by simpa using hp
      have hpm : (p.1 == m) = false := by
        subst hp1; exact h
      simp [dictSet, hp, dictGet, List.find?, h, hpm]
    · by_cases hm : p.1 == m
      · simp [dictSet, hp, dictGet, List.find?, hm]
      · simp only [dictSet, hp, Bool.false_eq_true, if_false]
        simpa [dictGet, List.find?, hm] using ih

theorem dictSet_keys_of_mem (d : List (String × String)) (k v : String)
    (h : k ∈ d.map Prod.fst) :
    (dictSet d k v).map Prod.fst = d.map Prod.fst := by
  induction d with
  | nil => simp at h
  | cons p rest ih =>
    by_cases hp : p.1 == k
    · have hp1 : p.1 = k := by simpa using hp
      simp [dictSet, hp, hp1]
    · have hp1 : p.1 ≠ k := by simpa using hp
      have hk : k ∈ rest.map Prod.fst := by
        simp only [List.map_cons, List.mem_cons] at h
        exact h.resolve_left (fun hh => hp1 hh.symm)
      simp [dictSet, hp, ih hk]

theorem dictGet_map_empty (cols : List String) (col : String) :
    dictGet (cols.map (fun c => (c, ""))) col = "" := by
  induction cols with
  | nil => simp [dictGet]
  | cons c rest ih =>
    by_cases h : c == col
    · simp [dictGet, List.find?, h]
    · simpa [dictGet, List.find?, h] using ih

/-! ### First-match lemmas -/

theorem firstMatch_mem (line : List Char) (cols : List String) (col : String)
    (h : firstMatch line cols = some col) : col ∈ cols := by
  induction cols with
  | nil => simp [firstMatch] at h
  | cons c rest ih =>
    by_cases hc : matchesB line c
    · simp only [firstMatch, hc, if_true, Option.some.injEq] at h
      simp [h]
    · simp only [firstMatch, hc, Bool.false_eq_true, if_false] at h
      exact List.mem_cons_of_mem _ (ih h)

theorem firstMatch_first_wins (line : List Char) (cols : List String) (col : String)
    (h : firstMatch line cols = some col) :
    ∃ pre post, cols = pre ++ col :: post ∧ (∀ c ∈ pre, matchesB line c = false) ∧
      matchesB line col = true := by
  induction cols with
  | nil => simp [firstMatch] at h
  | cons c rest ih =>
    by_cases hc : matchesB line c
    · simp only [firstMatch, hc, if_true, Option.some.injEq] at h
      exact ⟨[], rest, by simp [← h], by simp, h ▸ hc⟩
    · simp only [firstMatch, hc, Bool.false_eq_true, if_false] at h
      obtain ⟨pre, post, h1, h2, h3⟩ := ih h
      refine ⟨c :: pre, post, by simp [h1], ?_, h3⟩
      intro x hx
      rcases List.mem_cons.mp hx with hx | hx
      · subst hx; simpa using hc
      · exact h2 x hx

theorem firstMatch_none (line : List Char) (cols : List String)
    (h : ∀ c ∈ cols, matchesB line c = false) :
    firstMatch line cols = none := by
  induction cols with
  | nil => simp [firstMatch]
  | cons c rest ih =>
    have hc := h c (by simp)
    simp only [firstMatch, hc, Bool.false_eq_true, if_false]
    exact ih (fun x hx => h x (List.mem_cons_of_mem _ hx))

/-! ### Case equations for the per-line loop body -/

theorem processLine_matched (d : List (String × String)) (cur : Option String)
    (l : List Char) (col : String)
    (hm : firstMatch (pyStrip l) output_cols = some col) :
    processLine (d, cur) l =
      (dictSet d col (String.mk (pyStrip (afterFirstColon (pyStrip l)))), some col) := by
  simp [processLine, hm]

theorem processLine_cont (d : List (String × String)) (c : String) (l : List Char)
    (hm : firstMatch (pyStrip l) output_cols = none) :
    processLine (d, some c) l =
      (dictSet d c (dictGet d c ++ "\n" ++ String.mk (pyStrip l)), some c) := by
  simp [processLine, hm]

theorem processLine_skip (d : List (String × String)) (l : List Char)
    (hm : firstMatch (pyStrip l) output_cols = none) :
    processLine (d, none) l = (d, none) := by
  simp [processLine, hm]

/-! ### Fold lemmas for the per-line loop -/

theorem runLines_append (st : List (String × String) × Option String)
    (xs ys : List (List Char)) :
    runLines st (xs ++ ys) = runLines (runLines st xs) ys := by
  induction xs generalizing st with
  | nil => simp [runLines]
  | cons l rest ih => simp [runLines, ih]

theorem runLines_keys (ls : List (List Char)) (d : List (String × String))
    (cur : Option String) (hd : d.map Prod.fst = output_cols)
    (hcur : ∀ c, cur = some c → c ∈ output_cols) :
    ((runLines (d, cur) ls).1.map Prod.fst = output_cols ∧
      ∀ c, (runLines (d, cur) ls).2 = some c → c ∈ output_cols) := by
  induction ls generalizing d cur with
  | nil => exact ⟨hd, hcur⟩
  | cons l rest ih =>
    simp only [runLines]
    rcases hm : firstMatch (pyStrip l) output_cols with _ | col
    · cases cur with
      | none =>
        rw [processLine_skip d l hm]
        exact ih d none hd (by simp)
      | some c =>
        have hmem : c ∈ output_cols := hcur c rfl
        rw [processLine_cont d c l hm]
        refine ih _ _ ?_ ?_
        · rw [dictSet_keys_of_mem d c _ (by rw [hd]; exact hmem)]
          exact hd
        · intro x hx
          rw [Option.some.injEq] at hx
          subst hx; exact hmem
    · have hmem : col ∈ output_cols := firstMatch_mem _ _ _ hm
      rw [processLine_matched d cur l col hm]
      refine ih _ _ ?_ ?_
      · rw [dictSet_keys_of_mem d col _ (by rw [hd]; exact hmem)]
        exact hd
      · intro x hx
        rw [Option.some.injEq] at hx
        subst hx; exact hmem

theorem runLines_unmatched (ls : List (List Char)) (d : List (String × String))
    (cur : Option String) (col : String)
    (hls : ∀ l ∈ ls, firstMatch (pyStrip l) output_cols ≠ some col)
    (hd : dictGet d col = "") (hcur : cur ≠ some col) :
    dictGet (runLines (d, cur) ls).1 col = "" := by
  induction ls generalizing d cur with
  | nil => exact hd
  | cons l rest ih =>
    simp only [runLines]
    have hl := hls l (by simp)
    rcases hm : firstMatch (pyStrip l) output_cols with _ | c
    · cases cur with
      | none =>
        rw [processLine_skip d l hm]
        exact ih _ _ (fun x hx => hls x (List.mem_cons_of_mem _ hx)) hd (by simp)
      | some c =>
        have hcc : c ≠ col := fun hh => hcur (by rw [hh])
        have hne : (c == col) = false := by simpa using hcc
        rw [processLine_cont d c l hm]
        refine ih _ _ (fun x hx => hls x (List.mem_cons_of_mem _ hx)) ?_ ?_
        · rw [dictGet_dictSet_ne _ _ _ _ hne]
          exact hd
        · intro hh
          rw [Option.some.injEq] at hh
          exact hcc hh
    · have hcc : c ≠ col := by
        rw [hm] at hl
        exact fun hh => hl (by rw [hh])
      have hne : (c == col) = false := by simpa using hcc
      rw [processLine_matched d cur l c hm]
      refine ih _ _ (fun x hx => hls x (List.mem_cons_of_mem _ hx)) ?_ ?_
      · rw [dictGet_dictSet_ne _ _ _ _ hne]
        exact hd
      · intro hh
        rw [Option.some.injEq] at hh
        exact hcc hh

/-! ### Generation-loop lemmas -/

theorem outputTextsFrom_length (gen : Nat → String → Except String String) (i0 : Nat)
    (rows : List String) : (outputTextsFrom gen i0 rows).length = rows.length := by
  induction rows generalizing i0 with
  | nil => rfl
  | cons d rest ih => simp [outputTextsFrom, ih]

theorem outputTextsFrom_get? (gen : Nat → String → Except String String)
    (rows : List String) (i0 i : Nat) (h : i < rows.length) :
    (outputTextsFrom gen i0 rows).get? i =
      some (recordOutcome (gen (i0 + i) (rows.get ⟨i, h⟩))) := by
  induction rows generalizing i0 i with
  | nil => simp at h
  | cons d rest ih =>
    cases i with
    | zero => simp [outputTextsFrom]
    | succ j =>
      have hj : j < rest.length := by simpa using h
      have harith : i0 + (j + 1) = (i0 + 1) + j := by omega
      simp only [outputTextsFrom, List.get?_cons_succ, List.get_cons_succ, harith]
      exact ih (i0 + 1) j hj

theorem parsedRecords_get? (texts : List String) (i : Nat) :
    (parsedRecords texts).get? i = (texts.get? i).map extractDict := by
  induction texts generalizing i with
  | nil => rfl
  | cons a l ih =>
    cases i with
    | zero => rfl
    | succ j => exact ih j

/-! ### Table lemmas -/

theorem lookupCol_setColumn_self (t : Table) (n : String) (vs : List String) :
    lookupCol (setColumn t n vs) n = vs := by
  induction t with
  | nil => simp [setColumn, lookupCol]
  | cons p rest ih =>
    by_cases h : p.1 == n
    · simp [setColumn, h, lookupCol]
    · simp only [setColumn, h, Bool.false_eq_true, if_false]
      simpa [lookupCol, List.find?, h] using ih

theorem lookupCol_setColumn_ne (t : Table) (n m : String) (vs : List String)
    (h : (n == m) = false) :
    lookupCol (setColumn t n vs) m = lookupCol t m := by
  induction t with
  | nil => simp [setColumn, lookupCol, List.find?, h]
  | cons p rest ih =>
    by_cases hp : p.1 == n
    · have hp1 : p.1 = n := by simpa using hp
      have hpm : (p.1 == m) = false := by subst hp1; exact h
      simp [setColumn, hp, lookupCol, List.find?, h, hpm]
    · by_cases hm : p.1 == m
      · simp [setColumn, hp, lookupCol, List.find?, hm]
      · simp only [setColumn, hp, Bool.false_eq_true, if_false]
        simpa [lookupCol, List.find?, hm] using ih

theorem lookupCol_foldl_setColumn (pvals : String → List String) (cols : List String)
    (t : Table) (m : String) :
    lookupCol (cols.foldl (fun a c => setColumn a c (pvals c)) t) m =
      if m ∈ cols then pvals m else lookupCol t m := by
  induction cols generalizing t with
  | nil => simp
  | cons c rest ih =>
    simp only [List.foldl_cons]
    rw [ih]
    by_cases hm : m ∈ rest
    · simp [hm]
    · by_cases hc : m = c
      · subst hc
        simp [hm, lookupCol_setColumn_self]
      · have hne : (c == m) = false := by
          rw [beq_eq_false_iff_ne]
          exact fun hh => hc hh.symm
        simp [hm, hc, lookupCol_setColumn_ne t c m _ hne]

theorem lookupCol_project (t : Table) (names : List String) (m : String) :
    lookupCol (project t names) m = if m ∈ names then lookupCol t m else [] := by
  induction names with
  | nil => simp [project, lookupCol]
  | cons n rest ih =>
    by_cases hn : n == m
    · have hn1 : n = m := by simpa using hn
      simp [project, lookupCol, List.find?, hn, hn1]
    · have hn0 : n ≠ m := by simpa using hn
      have hn1 : m ≠ n := fun hh => hn0 hh.symm
      simp only [project, List.map_cons] at ih ⊢
      rw [show lookupCol ((n, lookupCol t n) :: List.map (fun n => (n, lookupCol t n)) rest) m =
        lookupCol (List.map (fun n => (n, lookupCol t n)) rest) m by
          simp [lookupCol, List.find?, hn]]
      rw [ih]
      simp [hn1]

theorem map_fst_project (t : Table) (names : List String) :
    (project t names).map Prod.fst = names := by
  induction names with
  | nil => rfl
  | cons n rest ih =>
    simp only [project, List.map_cons] at ih ⊢
    rw [ih]

theorem processTable_head (t : Table) (sel : String)
    (gen : Nat → String → Except String String) :
    (processTable t sel gen).head? = some (sel,
      if sel ∈ output_cols then parsedColumn (outputTexts (descTexts t sel) gen) sel
      else descTexts t sel) := by
  simp only [processTable, project, List.map_cons, List.head?_cons, Option.some.injEq,
    Prod.mk.injEq, true_and]
  rw [lookupCol_foldl_setColumn (fun c => parsedColumn (outputTexts (descTexts t sel) gen) c)]
  rfl

/-! ### Splitlines and strip lemmas -/

theorem collapseCRLF_no_cr (l : List Char) (h : ∀ c ∈ l, (c == '\r') = false) :
    collapseCRLF l = l := by
  induction l with
  | nil => rfl
  | cons c rest ih =>
    have hc : c ≠ '\r' := by simpa using h c (by simp)
    rw [collapseCRLF.eq_def]
    split
    · rename_i heq
      simp at heq
    · rename_i r heq
      exact absurd (List.cons.inj heq).1 hc
    · rename_i c2 rest2 heq
      obtain ⟨h1, h2⟩ := List.cons.inj heq
      rw [← h1, ← h2]
      rw [ih (fun x hx => h x (List.mem_cons_of_mem _ hx))]

theorem splitlinesGo_no_break (l acc : List Char) (h : ∀ c ∈ l, isLineBreak c = false) :
    splitlinesGo l acc = [acc.reverse ++ l] := by
  induction l generalizing acc with
  | nil => simp [splitlinesGo]
  | cons c rest ih =>
    have hc : isLineBreak c = false := h c (by simp)
    simp only [splitlinesGo, hc, Bool.false_eq_true, if_false]
    rw [ih (c :: acc) (fun x hx => h x (List.mem_cons_of_mem _ hx))]
    simp

theorem splitlines_no_break (l : List Char) (hne : l ≠ [])
    (h : ∀ c ∈ l, isLineBreak c = false) : splitlines l = [l] := by
  have hcr : ∀ c ∈ l, (c == '\r') = false := by
    intro c hc
    have hb := h c hc
    by_contra hcc
    have : c = '\r' := by simpa using hcc
    subst this
    simp [isLineBreak] at hb
  have hemp : l.isEmpty = false := by
    cases l with
    | nil => exact absurd rfl hne
    | cons a b => rfl
  rw [splitlines, hemp]
  simp only [Bool.false_eq_true, if_false]
  rw [collapseCRLF_no_cr l hcr, splitlinesGo_no_break l [] h]
  simp

theorem dropWhile_append_last (p : Char → Bool) (xs : List Char) (c : Char)
    (h : p c = false) :
    ∃ ys, List.dropWhile p (xs ++ [c]) = ys ++ [c] := by
  induction xs with
  | nil => exact ⟨[], by simp [List.dropWhile, h]⟩
  | cons x rest ih =>
    by_cases hx : p x
    · simpa [List.dropWhile, hx] using ih
    · exact ⟨x :: rest, by simp [List.dropWhile, hx]⟩

theorem pyStrip_cons (c : Char) (l : List Char) (h : isPySpace c = false) :
    ∃ t, pyStrip (c :: l) = c :: t := by
  unfold pyStrip
  rw [show List.dropWhile isPySpace (c :: l) = c :: l by simp [List.dropWhile, h]]
  rw [List.reverse_cons]
  obtain ⟨ys, hys⟩ := dropWhile_append_last isPySpace l.reverse c h
  rw [hys]
  exact ⟨ys.reverse, by simp⟩

theorem matchesB_cons_head_ne (c : Char) (t : List Char) (col : String) (p : Char)
    (ps : List Char) (hcol : pyLower col.data ++ [':'] = p :: ps)
    (hne : (p == Char.toLower c) = false) :
    matchesB (c :: t) col = false := by
  rw [matchesB, hcol]
  rw [show pyLower (c :: t) = Char.toLower c :: pyLower t from rfl]
  simp [startsWithL, hne]

theorem firstMatch_error_head (t : List Char) :
    firstMatch ('E' :: t) output_cols = none := by
  apply firstMatch_none
  intro col hcol
  fin_cases hcol <;>
    exact matchesB_cons_head_ne _ _ _ _ _ rfl (by decide)

/-! ### Claim theorems -/

/-- C1: Row-preservation invariant: the generation loop produces exactly
one raw text per input row, the parsing loop produces exactly one record
per raw text in the same order (the i-th record is the parse of the i-th
row's generation outcome), and every column of the final table has
exactly as many entries as the selected input column has rows — no rows
are added, dropped, or reordered. -/
theorem pipeline_row_preservation (rows : List String)
    (gen : Nat → String → Except String String) (t : Table) (sel : String) :
    (outputTexts rows gen).length = rows.length ∧
    (parsedRecords (outputTexts rows gen)).length = rows.length ∧
    (∀ i (h : i < rows.length),
      (parsedRecords (outputTexts rows gen)).get? i =
        some (extractDict (recordOutcome (gen i (rows.get ⟨i, h⟩))))) ∧
    (∀ p ∈ processTable t sel gen, p.2.length = (descTexts t sel).length) := by
  have hlen : (outputTexts rows gen).length = rows.length :=
    outputTextsFrom_length gen 0 rows
  refine ⟨hlen, ?_, ?_, ?_⟩
  · rw [parsedRecords, List.length_map, hlen]
  · intro i h
    rw [parsedRecords_get?, outputTexts, outputTextsFrom_get? gen rows 0 i h]
    simp
  · intro p hp
    simp only [processTable, project, List.mem_map] at hp
    obtain ⟨n, hn, rfl⟩ := hp
    simp only
    rw [lookupCol_foldl_setColumn]
    by_cases hmem : n ∈ output_cols
    · simp only [hmem, if_true]
      simp [parsedColumn, parsedRecords, outputTexts, outputTextsFrom_length]
    · simp only [hmem, if_false]
      rcases List.mem_cons.mp hn with rfl | hn2
      · rfl
      · exact absurd hn2 hmem

/-- Witness for C1 at a concrete two-row input whose generation calls
both fail. -/
theorem pipeline_row_preservation_witness :
    (parsedRecords (outputTexts ["a", "b"] (fun _ _ => Except.error "boom"))).get? 1 =
      some (extractDict (recordOutcome (Except.error "boom"))) :=
  (pipeline_row_preservation ["a", "b"] (fun _ _ => Except.error "boom") [] "desc").2.2.1
    1 (by decide)

/-- C2 counterexample: a raw text that begins with "ERROR:" but whose
second line is a field-prefix line; the extractor sets that field to a
non-empty value, so not every field of the record is empty. -/
theorem error_text_extraction_cex :
    startsWithL "ERROR: x\nFinish: B".data "ERROR:".data = true ∧
    extractField "ERROR: x\nFinish: B" "Finish" = "B" ∧
    ("B" : String) ≠ "" := by
  refine ⟨by decide, by decide, by decide⟩

/-- C2 (amended): for every error message that contains no line-boundary
character, the error-marked text "ERROR: " ++ m is a single line that
matches no field prefix, so every one of the ten fields of the resulting
record is the empty string. -/
theorem error_text_all_fields_empty (m : String)
    (h : ∀ c ∈ m.data, isLineBreak c = false) :
    firstMatch (pyStrip ("ERROR: " ++ m).data) output_cols = none ∧
    ∀ col ∈ output_cols, extractField ("ERROR: " ++ m) col = "" := by
  have hdata : ("ERROR: " ++ m).data =
      'E' :: 'R' :: 'R' :: 'O' :: 'R' :: ':' :: ' ' :: m.data := by
    cases m
    rfl
  have hnb : ∀ c ∈ ("ERROR: " ++ m).data, isLineBreak c = false := by
    rw [hdata]
    intro c hc
    simp only [List.mem_cons] at hc
    rcases hc with rfl | rfl | rfl | rfl | rfl | rfl | rfl | hc
    · decide
    · decide
    · decide
    · decide
    · decide
    · decide
    · decide
    · exact h c hc
  have hne : ("ERROR: " ++ m).data ≠ [] := by rw [hdata]; simp
  have hsplit : splitlines ("ERROR: " ++ m).data = [("ERROR: " ++ m).data] :=
    splitlines_no_break _ hne hnb
  obtain ⟨tl, htl⟩ :=
    pyStrip_cons 'E' ('R' :: 'R' :: 'O' :: 'R' :: ':' :: ' ' :: m.data) (by decide)
  have hfm : firstMatch (pyStrip ("ERROR: " ++ m).data) output_cols = none := by
    rw [hdata, htl]
    exact firstMatch_error_head tl
  refine ⟨hfm, ?_⟩
  intro col hcol
  rw [extractField, extractDict, hsplit]
  simp only [runLines]
  rw [processLine_skip _ _ hfm]
  exact dictGet_map_empty output_cols col

/-- Witness for C2's amended theorem at the concrete message "timeout". -/
theorem error_text_all_fields_empty_witness :
    firstMatch (pyStrip ("ERROR: " ++ "timeout").data) output_cols = none ∧
    ∀ col ∈ output_cols, extractField ("ERROR: " ++ "timeout") col = "" :=
  error_text_all_fields_empty "timeout" (by decide)

/-- C3: accumulation onto the last-matched field: the spec's example
parses to Product Category = "Pipe" and Size or Dimension =
"2in\nMore info here" with all other fields empty; in general a line
matching no field prefix is appended (preceded by a newline) to the
current field when one is set, and dropped when no field has been
matched yet. -/
theorem extractor_multiline_accumulation :
    extractDict "Product Category: Pipe\nSize or Dimension: 2in\nMore info here" =
      [("Product Category", "Pipe"), ("Product SubCategory", ""), ("Product Type", ""),
       ("Material of Construction", ""), ("Size or Dimension", "2in\nMore info here"),
       ("Standards", ""), ("Finish", ""), ("Miscellaneous Info", ""), ("Cautions", ""),
       ("Assumption Reasons", "")] ∧
    (∀ d cur raw, firstMatch (pyStrip raw) output_cols = none →
      processLine (d, some cur) raw =
        (dictSet d cur (dictGet d cur ++ "\n" ++ String.mk (pyStrip raw)), some cur)) ∧
    (∀ d raw, firstMatch (pyStrip raw) output_cols = none →
      processLine (d, none) raw = (d, none)) := by
  refine ⟨by decide, ?_, ?_⟩
  · intro d cur raw hm
    exact processLine_cont d cur raw hm
  · intro d raw hm
    exact processLine_skip d raw hm

/-- Witness for C3's general conjuncts at a concrete continuation line. -/
theorem extractor_multiline_accumulation_witness :
    processLine ([("Finish", "A")], some "Finish") "more".data =
      ([("Finish", "A\nmore")], some "Finish") ∧
    processLine ([("Finish", "A")], none) "more".data = ([("Finish", "A")], none) := by
  constructor
  · rw [extractor_multiline_accumulation.2.1 [("Finish", "A")] "Finish" "more".data
      (by decide)]
    decide
  · rw [extractor_multiline_accumulation.2.2 [("Finish", "A")] "more".data (by decide)]

/-- C4: last write wins per field: whenever the last line of the text
matches a field, the extracted value of that field is exactly that
line's value (whatever any earlier occurrences set or accumulated); a
matching line always overwrites the field with the text after the first
colon and resets the current field to it; and on the spec's example the
second "Finish" occurrence wins. -/
theorem extractor_last_write_wins :
    (∀ (t : String) (ls : List (List Char)) (raw : List Char) (col : String),
      splitlines t.data = ls ++ [raw] →
      firstMatch (pyStrip raw) output_cols = some col →
      extractField t col = String.mk (pyStrip (afterFirstColon (pyStrip raw)))) ∧
    (∀ d cur raw col, firstMatch (pyStrip raw) output_cols = some col →
      processLine (d, cur) raw =
        (dictSet d col (String.mk (pyStrip (afterFirstColon (pyStrip raw)))), some col)) ∧
    extractField "Finish: A\nextra\nFinish: B" "Finish" = "B" := by
  refine ⟨?_, ?_, by decide⟩
  · intro t ls raw col hsplit hm
    rw [extractField, extractDict, hsplit, runLines_append]
    rcases hst : runLines (emptyDict, none) ls with ⟨d, cur⟩
    simp only [runLines]
    rw [processLine_matched d cur raw col hm]
    exact dictGet_dictSet_self d col _
  · intro d cur raw col hm
    exact processLine_matched d cur raw col hm

/-- Witness for C4 at the concrete text whose last line is the second
"Finish" occurrence. -/
theorem extractor_last_write_wins_witness :
    extractField "Finish: A\nextra\nFinish: B" "Finish" =
      String.mk (pyStrip (afterFirstColon (pyStrip "Finish: B".data))) ∧
    processLine ([("Finish", "A")], none) "Finish: B".data =
      (dictSet [("Finish", "A")] "Finish"
        (String.mk (pyStrip (afterFirstColon (pyStrip "Finish: B".data)))),
        some "Finish") :=
  ⟨extractor_last_write_wins.1 "Finish: A\nextra\nFinish: B"
      ["Finish: A".data, "extra".data] "Finish: B".data "Finish" (by decide) (by decide),
   extractor_last_write_wins.2.1 [("Finish", "A")] none "Finish: B".data "Finish"
      (by decide)⟩

/-- C5: prefix matching is case-insensitive on the stripped line and
requires the field name immediately followed by a colon (that is the
definition of `matchesB`, over `pyLower` and `pyStrip`); the first
matching field in the fixed FieldSet order wins; the stored value is the
text after the first colon, trimmed; and "PRODUCT CATEGORY: X" sets
"Product Category" to "X". -/
theorem extractor_prefix_matching :
    (∀ (line : List Char) (col : String), firstMatch line output_cols = some col →
      ∃ pre post, output_cols = pre ++ col :: post ∧
        (∀ c ∈ pre, matchesB line c = false) ∧ matchesB line col = true) ∧
    (∀ d cur raw col, firstMatch (pyStrip raw) output_cols = some col →
      processLine (d, cur) raw =
        (dictSet d col (String.mk (pyStrip (afterFirstColon (pyStrip raw)))), some col)) ∧
    extractField "PRODUCT CATEGORY: X" "Product Category" = "X" := by
  refine ⟨?_, ?_, by decide⟩
  · intro line col h
    exact firstMatch_first_wins line output_cols col h
  · intro d cur raw col hm
    exact processLine_matched d cur raw col hm

/-- Witness for C5 at concrete matching lines. -/
theorem extractor_prefix_matching_witness :
    (∃ pre post, output_cols = pre ++ "Finish" :: post ∧
      (∀ c ∈ pre, matchesB "Finish: A".data c = false) ∧
      matchesB "Finish: A".data "Finish" = true) ∧
    processLine (emptyDict, none) "PRODUCT CATEGORY: X".data =
      (dictSet emptyDict "Product Category"
        (String.mk (pyStrip (afterFirstColon (pyStrip "PRODUCT CATEGORY: X".data)))),
        some "Product Category") :=
  ⟨extractor_prefix_matching.1 "Finish: A".data "Finish" (by decide),
   extractor_prefix_matching.2.1 emptyDict none "PRODUCT CATEGORY: X".data
      "Product Category" (by decide)⟩

/-- C6: the generation client never aborts the batch: the loop is total,
produces exactly one text per row, a failed call is recorded as the
single literal "ERROR: " ++ message in place of the raw response, and
every row's entry — before and after a failure — is determined by that
row's own outcome alone (no retry, processing moves on). -/
theorem generation_client_error_capture (rows : List String)
    (gen : Nat → String → Except String String) :
    (outputTexts rows gen).length = rows.length ∧
    (∀ m : String, recordOutcome (Except.error m) = "ERROR: " ++ m) ∧
    (∀ i (h : i < rows.length),
      (outputTexts rows gen).get? i = some (recordOutcome (gen i (rows.get ⟨i, h⟩)))) := by
  refine ⟨outputTextsFrom_length gen 0 rows, fun m => rfl, ?_⟩
  intro i h
  have hi := outputTextsFrom_get? gen rows 0 i h
  simpa using hi

/-- Witness for C6: a three-row batch whose middle call fails records
the literal error text there and still yields one entry per row. -/
theorem generation_client_error_capture_witness :
    (outputTexts ["a", "b", "c"]
      (fun i _ => if i = 1 then Except.error "boom" else Except.ok "ok")).get? 1 =
      some ("ERROR: " ++ "boom") :=
  (generation_client_error_capture ["a", "b", "c"]
    (fun i _ => if i = 1 then Except.error "boom" else Except.ok "ok")).2.2 1 (by decide)

/-- C7 counterexample: when the selected column is itself named like a
FieldSet column ("Finish"), the output row does not carry the original
description value: the description cell holds the parsed field value "B"
rather than the original "origF". -/
theorem output_table_shape_cex :
    (processTable [("Finish", ["origF"])] "Finish"
      (fun _ _ => Except.ok "Finish: B")).head? = some ("Finish", ["B"]) ∧
    (["B"] : List String) ≠ ["origF"] := by
  refine ⟨by decide, by decide⟩

/-- C7 (amended): the final table's columns are exactly the selected
column followed by the ten FieldSet columns in the fixed order; every
FieldSet column holds the parsed values (one string per row); every
column has exactly one entry per input row; and, provided the selected
column's name differs from all ten FieldSet names, the description
column carries the original input values. -/
theorem output_table_shape (t : Table) (sel : String)
    (gen : Nat → String → Except String String) :
    (processTable t sel gen).map Prod.fst = sel :: output_cols ∧
    output_cols = ["Product Category", "Product SubCategory", "Product Type",
      "Material of Construction", "Size or Dimension", "Standards", "Finish",
      "Miscellaneous Info", "Cautions", "Assumption Reasons"] ∧
    (∀ c ∈ output_cols, lookupCol (processTable t sel gen) c =
      parsedColumn (outputTexts (descTexts t sel) gen) c) ∧
    (∀ p ∈ processTable t sel gen, p.2.length = (descTexts t sel).length) ∧
    (sel ∉ output_cols → (processTable t sel gen).head? = some (sel, descTexts t sel)) := by
  refine ⟨?_, rfl, ?_, ?_, ?_⟩
  · exact map_fst_project _ (sel :: output_cols)
  · intro c hc
    show lookupCol (project _ (sel :: output_cols)) c = _
    rw [lookupCol_project]
    simp only [List.mem_cons.mpr (Or.inr hc), if_true]
    rw [lookupCol_foldl_setColumn]
    simp [hc]
  · intro p hp
    simp only [processTable, project, List.mem_map] at hp
    obtain ⟨n, hn, rfl⟩ := hp
    simp only
    rw [lookupCol_foldl_setColumn]
    by_cases hmem : n ∈ output_cols
    · simp only [hmem, if_true]
      simp [parsedColumn, parsedRecords, outputTexts, outputTextsFrom_length]
    · simp only [hmem, if_false]
      rcases List.mem_cons.mp hn with rfl | hn2
      · rfl
      · exact absurd hn2 hmem
  · intro h
    rw [processTable_head]
    simp [h]

/-- Witness for C7's amended theorem at a concrete one-row input with a
non-colliding column name. -/
theorem output_table_shape_witness :
    lookupCol (processTable [("desc", ["d1"])] "desc" (fun _ _ => Except.error "x"))
        "Finish" =
      parsedColumn (outputTexts (descTexts [("desc", ["d1"])] "desc")
        (fun _ _ => Except.error "x")) "Finish" ∧
    (processTable [("desc", ["d1"])] "desc" (fun _ _ => Except.error "x")).head? =
      some ("desc", descTexts [("desc", ["d1"])] "desc") :=
  ⟨(output_table_shape [("desc", ["d1"])] "desc" (fun _ _ => Except.error "x")).2.2.1
      "Finish" (by decide),
   (output_table_shape [("desc", ["d1"])] "desc" (fun _ _ => Except.error "x")).2.2.2.2
      (by decide)⟩

/-- C8: the field extractor is total and fully populated: for every
input string the record's keys are exactly the ten FieldSet names in
order (hence ten string values), and every field matched by no line
remains the empty string. -/
theorem extractor_total_fully_populated (t : String) :
    (extractDict t).map Prod.fst = output_cols ∧
    (extractDict t).length = 10 ∧
    (∀ col, (∀ l ∈ splitlines t.data, firstMatch (pyStrip l) output_cols ≠ some col) →
      extractField t col = "") := by
  have hkeys := (runLines_keys (splitlines t.data) emptyDict none rfl (by simp)).1
  refine ⟨hkeys, ?_, ?_⟩
  · have hl := congrArg List.length hkeys
    simpa using hl
  · intro col hcol
    rw [extractField, extractDict]
    exact runLines_unmatched (splitlines t.data) emptyDict none col hcol
      (dictGet_map_empty output_cols col) (by simp)

/-- Witness for C8 at a concrete input with no field-prefix line. -/
theorem extractor_total_fully_populated_witness :
    (extractDict "hello world").map Prod.fst = output_cols ∧
    extractField "hello world" "Finish" = "" :=
  ⟨(extractor_total_fully_populated "hello world").1,
   (extractor_total_fully_populated "hello world").2.2 "Finish" (by decide)⟩

/-- C9: FormatError handling: when the processed table cannot be coerced
into a DataFrame after a user edit, the failure is caught, a message is
surfaced to the user, and the table reference is reset to `none` instead
of the exception propagating. -/
theorem format_error_fallback (e : String) :
    ensureProcessedDf (Sum.inr (Except.error e)) =
      (none, some ("Error: The processed data is not in the correct format. " ++ e)) :=
  rfl

/-- C10: description-column preservation and its name-collision edge
case: when the selected column's name is none of the ten FieldSet names,
the output description column equals the original input column; when it
collides with a FieldSet name, the column assignment has overwritten the
original values with the parsed field values before projection. -/
theorem desc_column_preservation (t : Table) (sel : String)
    (gen : Nat → String → Except String String) :
    (sel ∉ output_cols → (processTable t sel gen).head? = some (sel, descTexts t sel)) ∧
    (sel ∈ output_cols → (processTable t sel gen).head? =
      some (sel, parsedColumn (outputTexts (descTexts t sel) gen) sel)) := by
  constructor
  · intro h
    rw [processTable_head]
    simp [h]
  · intro h
    rw [processTable_head]
    simp [h]

/-- Witness for C10: both the preservation case and the collision case
at concrete one-row inputs. -/
theorem desc_column_preservation_witness :
    (processTable [("desc", ["p1"])] "desc" (fun _ _ => Except.ok "Finish: F")).head? =
      some ("desc", descTexts [("desc", ["p1"])] "desc") ∧
    (processTable [("Finish", ["origF"])] "Finish"
        (fun _ _ => Except.ok "Finish: B")).head? =
      some ("Finish", parsedColumn (outputTexts (descTexts [("Finish", ["origF"])] "Finish")
        (fun _ _ => Except.ok "Finish: B")) "Finish") :=
  ⟨(desc_column_preservation [("desc", ["p1"])] "desc"
      (fun _ _ => Except.ok "Finish: F")).1 (by decide),
   (desc_column_preservation [("Finish", ["origF"])] "Finish"
      (fun _ _ => Except.ok "Finish: B")).2 (by decide)⟩

end RFQ
